import Mathlib

/-!
# Verification of the freqle frequency-analysis core

Shallow embedding of the repository's core logic:

* `freq_series.py` — the `FreqSeries` wrapper (construction checks, derived
  sample rate / sampling regularity, `trim`),
* `statistics.py` — `deviation` with its jackknife error-band estimation
  (`_estimate_error`), `generate_taus`, and `asd` (Welch-based amplitude
  spectral density),
* `plotter.py` — the `_generate_line_props` style sequencer.

Modelling conventions:

* Timestamps and measured values are rationals (`ℚ`).  `pandas` timestamps
  enter the source only through `.timestamp()` floats; we model them exactly.
* `numpy` float division by zero produces `inf`, not an exception; the derived
  `sampling_regularity` is therefore modelled in `WithTop ℚ` (`⊤` = `inf`).
* The external `allantools` deviation estimator and `scipy.signal.welch` are
  modelled as abstract function parameters (`DevMethod`, `WelchFn`): the
  claims under study are about how the repository drives them, not about
  their numerics.  Likewise `np.sqrt` is an abstract `sqrtQ : ℚ → ℚ`
  parameter; where a claim needs an actual property of the square root
  (homogeneity under positive scaling) it is taken as an explicit hypothesis.
* `np.geomspace(a, b, num)` output is a pure function of its three arguments;
  a tau set is represented by that argument triple (`TauSpec`).
* Python exceptions are modelled with `Except`.
-/

namespace Freqle

/-- One counter sample: a timestamp (seconds) and a measured frequency. -/
structure Sample where
  time : ℚ
  val : ℚ
deriving DecidableEq

/-- `np.diff` on a list of timestamps. -/
def diffs : List ℚ → List ℚ
  | a :: b :: rest => (b - a) :: diffs (b :: rest)
  | _ => []

/-- Insert into a sorted list (helper for the sort underlying `np.median`). -/
def ins (x : ℚ) : List ℚ → List ℚ
  | [] => [x]
  | y :: ys => if x ≤ y then x :: y :: ys else y :: ins x ys

/-- Insertion sort: an executable model of the sorting done by `np.median`. -/
def isort : List ℚ → List ℚ
  | [] => []
  | x :: xs => ins x (isort xs)

/-- `np.median`: middle element of the sorted list, or the mean of the two
middle elements for even length.  (`np.median` of an empty array is `nan`;
the callers below never consult that value.) -/
def median (l : List ℚ) : ℚ :=
  if l.length % 2 = 1 then (isort l).getD (l.length / 2) 0
  else ((isort l).getD (l.length / 2 - 1) 0 + (isort l).getD (l.length / 2) 0) / 2

/-- `np.max` of a nonempty list (0 as a dummy for the empty list, on which
the source raises before the value could be used). -/
def listMax : List ℚ → ℚ
  | [] => 0
  | a :: rest => rest.foldl max a

/-- `np.min` of a nonempty list (dummy 0 for the empty list). -/
def listMin : List ℚ → ℚ
  | [] => 0
  | a :: rest => rest.foldl min a

/-- pandas `Index.is_monotonic_increasing`: NON-strict monotonicity
("equal or increasing"). -/
def isMonotonicIncreasing : List ℚ → Bool
  | a :: b :: rest => decide (a ≤ b) && isMonotonicIncreasing (b :: rest)
  | _ => true

/-- Strict monotonicity of timestamps (the property named by the spec; the
source's pandas check is the non-strict `isMonotonicIncreasing` above). -/
def strictlyIncreasing : List ℚ → Bool
  | a :: b :: rest => decide (a < b) && strictlyIncreasing (b :: rest)
  | _ => true

/-- `FreqSeries` (`freq_series.py`): the wrapped samples plus the metadata
and the rate/regularity values computed once at construction.  `trim` only
replaces `data`; the stored `rate` and `regularity` are never recomputed. -/
structure FreqSeries where
  data : List Sample
  org_freq : Option ℚ
  session : Option String
  rate : ℚ
  regularity : WithTop ℚ
deriving DecidableEq

/-- The exceptions `FreqSeries.__init__` can raise.  `notMonotonic` and
`tooFewSamples` surface as `ValueError` (the latter from `np.max` on a
zero-size diff array); `zeroMedian` surfaces as `ZeroDivisionError` at
`1/float(median)`. -/
inductive ConstructError
  | notMonotonic
  | tooFewSamples
  | zeroMedian
deriving DecidableEq

/-- The timestamp sequence of a sample list. -/
def times (samples : List Sample) : List ℚ := samples.map (fun x => x.time)

/-- `FreqSeries._analyze_sample_rate`: median sample interval gives the rate;
regularity is `max(max_interval/median, median/min_interval)`.  A zero
minimum interval makes the second ratio `inf` (numpy float division),
modelled as `⊤`. -/
def analyzeSampleRate (data : List Sample) : Except ConstructError (ℚ × WithTop ℚ) :=
  if diffs (times data) = [] then .error .tooFewSamples
  else if median (diffs (times data)) = 0 then .error .zeroMedian
  else
    .ok (1 / median (diffs (times data)),
      max ((listMax (diffs (times data)) / median (diffs (times data)) : ℚ) : WithTop ℚ)
        (if listMin (diffs (times data)) = 0 then (⊤ : WithTop ℚ)
         else ((median (diffs (times data)) / listMin (diffs (times data)) : ℚ) : WithTop ℚ)))

/-- `FreqSeries.__init__`: reject timestamps that are not (non-strictly)
monotonically increasing, then derive rate and regularity. -/
def FreqSeries.construct (samples : List Sample) (orgFreq : Option ℚ)
    (session : Option String) : Except ConstructError FreqSeries :=
  if isMonotonicIncreasing (times samples) = false then .error .notMonotonic
  else
    match analyzeSampleRate samples with
    | .error e => .error e
    | .ok rr => .ok ⟨samples, orgFreq, session, rr.1, rr.2⟩

/-- A (meaningless) placeholder series, used only as a `getD` default. -/
def defaultFS : FreqSeries := ⟨[], none, none, 0, 0⟩

/-- Convenience: the series produced by a successful construction. -/
def constructD (samples : List Sample) : FreqSeries :=
  (FreqSeries.construct samples none none).toOption.getD defaultFS

/-- `FreqSeries.duration`: last timestamp minus first (0 dummy for the empty
series, on which the source would raise an `IndexError`). -/
def FreqSeries.duration (s : FreqSeries) : ℚ :=
  match s.data with
  | [] => 0
  | a :: rest => (rest.getLastD a).time - a.time

/-- `FreqSeries.trim(start, end)`.  `start` is applied as `iloc[start:]` and
`end` as `iloc[:-end]`.  Python slicing makes `iloc[:-0]` the EMPTY slice
`iloc[:0]`, hence the `some 0` case.  Only `data` is replaced; the stored
`rate` and `regularity` fields are untouched. -/
def FreqSeries.trim (s : FreqSeries) (start : Option ℕ) (end_ : Option ℕ) : FreqSeries :=
  let d1 := match start with
    | none => s.data
    | some k => s.data.drop k
  let d2 := match end_ with
    | none => d1
    | some k => if k = 0 then [] else d1.take (d1.length - k)
  { s with data := d2 }

/-! ## statistics.py -/

/-- The three arguments of `np.geomspace(2/rate, duration*until, num)`; the
geomspace output is a pure function of this triple, so equal `TauSpec`s mean
equal tau arrays. -/
structure TauSpec where
  start : ℚ
  stop : ℚ
  num : ℕ
deriving DecidableEq

/-- `generate_taus(mmt, n_taus, until)`:
`np.geomspace(2/mmt.sample_rate, mmt.duration * until, num=n_taus)`.
(The source parameter `until` is a Lean keyword, hence `untl`.) -/
def generate_taus (mmt : FreqSeries) (n_taus : ℕ) (untl : ℚ) : TauSpec :=
  ⟨2 / mmt.rate, mmt.duration * untl, n_taus⟩

/-- An `allantools`-style deviation estimator: `name` is `method.__name__`,
`run` maps (frequency data, rate, tau set) to the returned
(tau array, deviation array) pair.  Kept abstract: the repository treats it
as an external black box. -/
structure DevMethod where
  name : String
  run : List ℚ → ℚ → TauSpec → List ℚ × List ℚ

/-- The `Adev` named tuple of `statistics.py`.  `errors` is the optional
`(tau row, lower row, upper row)` error band. -/
structure Adev where
  method_name : String
  measurement : FreqSeries
  taus : List ℚ
  devs : List ℚ
  errors : Option (List ℚ × List ℚ × List ℚ)

/-- Placeholder `Adev` used as a `headD` default (the chop list always has
10 elements, so it is never actually consulted). -/
def defaultAdev : Adev := ⟨"", defaultFS, [], [], none⟩

/-- `_OK_IRREGULARITY = 1.05`. -/
def _OK_IRREGULARITY : ℚ := 21 / 20

/-- The `ValueError` raised by `deviation` for irregularly sampled data. -/
inductive DevError
  | irregularSampling (regularity : WithTop ℚ)

/-- `if mmt.org_freq: adev /= mmt.org_freq` — Python truthiness: scaling is
applied only for a present, nonzero `org_freq`. -/
def scaleDevs (orgFreq : Option ℚ) (l : List ℚ) : List ℚ :=
  match orgFreq with
  | some f => if f = 0 then l else l.map (fun x => x / f)
  | none => l

/-- The body of `deviation` after the regularity gate, for a given tau
argument: run the estimator, then scale the deviations by `org_freq`. -/
def bareResult (method : DevMethod) (mmt : FreqSeries) (tauArg : TauSpec) : Adev :=
  ⟨method.name, mmt,
   (method.run (mmt.data.map (fun x => x.val)) mmt.rate tauArg).1,
   scaleDevs mmt.org_freq (method.run (mmt.data.map (fun x => x.val)) mmt.rate tauArg).2,
   none⟩

/-- `deviation(..., estimate_error=False)`: the regularity gate, tau
generation (`until=.01`) when no taus are supplied, estimator call, and
`org_freq` scaling. -/
def deviationBare (method : DevMethod) (mmt : FreqSeries) (taus : Option TauSpec)
    (allowable_irregularity : ℚ) : Except DevError Adev :=
  if mmt.regularity > ((allowable_irregularity : ℚ) : WithTop ℚ) then
    .error (.irregularSampling mmt.regularity)
  else
    match taus with
    | none => .ok (bareResult method mmt (generate_taus mmt 300 (1 / 100)))
    | some t => .ok (bareResult method mmt t)

/-- One chop of `_estimate_error`:
`chop = deepcopy(mmt); chop.trim(start=idx*slice_length,
end=(n_chops-idx-1)*slice_length)` with
`slice_length = int(len(mmt.data)/n_chops)`. -/
def chop (mmt : FreqSeries) (n_chops idx : ℕ) : FreqSeries :=
  mmt.trim (some (idx * (mmt.data.length / n_chops)))
    (some ((n_chops - idx - 1) * (mmt.data.length / n_chops)))

/-- The chop loop of `deviation._estimate_error`: walks the chop indices,
generating the tau set once (from the first chop, `until=.1`) and passing
that same set to every per-chop `deviation(..., estimate_error=False)` call.
A raised inner exception propagates. -/
def chopLoop (method : DevMethod) (allowable : ℚ) (mmt : FreqSeries) (n_chops : ℕ) :
    List ℕ → Option TauSpec → List Adev → Except DevError (List Adev)
  | [], _, devs => .ok devs
  | idx :: rest, none, devs =>
    match deviationBare method (chop mmt n_chops idx)
        (some (generate_taus (chop mmt n_chops idx) 300 (1 / 10))) allowable with
    | .error e => .error e
    | .ok d => chopLoop method allowable mmt n_chops rest
        (some (generate_taus (chop mmt n_chops idx) 300 (1 / 10))) (devs ++ [d])
  | idx :: rest, some t, devs =>
    match deviationBare method (chop mmt n_chops idx) (some t) allowable with
    | .error e => .error e
    | .ok d => chopLoop method allowable mmt n_chops rest (some t) (devs ++ [d])

/-- Arithmetic mean of a list (`np.mean`; 0 for the empty list, as the
division by the zero length would give in exact arithmetic). -/
def meanQ (l : List ℚ) : ℚ := l.sum / (l.length : ℚ)

/-- Population variance of a list: the argument of the square root in
`np.std`. -/
def varQ (l : List ℚ) : ℚ := meanQ (l.map (fun x => (x - meanQ l) ^ 2))

/-- Columnwise reduction of a row matrix (`np.mean(axis=0)` and friends):
apply `f` to every column, the column count taken from the first row. -/
def colwise (f : List ℚ → ℚ) (rows : List (List ℚ)) : List ℚ :=
  (List.range (rows.headD []).length).map
    (fun j => f (rows.map (fun r => r.getD j 0)))

/-- `deviation._estimate_error(mmt, n_chops)`: run the chop loop, stack the
per-chop deviation vectors, and return
`[devs[0].taus, mean - std/sqrt(n_chops), mean + std/sqrt(n_chops)]`. -/
def estimateError (sqrtQ : ℚ → ℚ) (method : DevMethod) (allowable : ℚ)
    (mmt : FreqSeries) (n_chops : ℕ) : Except DevError (List ℚ × List ℚ × List ℚ) :=
  match chopLoop method allowable mmt n_chops (List.range n_chops) none [] with
  | .error e => .error e
  | .ok devs =>
    .ok ((devs.headD defaultAdev).taus,
      List.zipWith (fun a b => a - b)
        (colwise meanQ (devs.map (fun d => d.devs)))
        ((colwise (fun c => sqrtQ (varQ c)) (devs.map (fun d => d.devs))).map
          (fun x => x / sqrtQ ((n_chops : ℕ) : ℚ))),
      List.zipWith (fun a b => a + b)
        (colwise meanQ (devs.map (fun d => d.devs)))
        ((colwise (fun c => sqrtQ (varQ c)) (devs.map (fun d => d.devs))).map
          (fun x => x / sqrtQ ((n_chops : ℕ) : ℚ))))

/-- `deviation(measurement, estimate_error, taus, allowable_irregularity,
method)`: the bare computation, plus — for `estimate_error=True` — the
jackknife error band attached to the result. -/
def deviation (sqrtQ : ℚ → ℚ) (method : DevMethod) (mmt : FreqSeries)
    (estimate_error : Bool) (taus : Option TauSpec)
    (allowable_irregularity : ℚ) : Except DevError Adev :=
  match deviationBare method mmt taus allowable_irregularity with
  | .error e => .error e
  | .ok a =>
    match estimate_error with
    | false => .ok a
    | true =>
      match estimateError sqrtQ method allowable_irregularity mmt 10 with
      | .error e => .error e
      | .ok band => .ok { a with errors := some band }

/-- The tau set `_estimate_error` generates once, from its first chop
(`generate_taus(chop, until=.1)` at `idx = 0`), and then shares with every
per-chop deviation call. -/
def sharedTaus (mmt : FreqSeries) : TauSpec :=
  generate_taus (chop mmt 10 0) 300 (1 / 10)

/-- The ten per-chop deviation results of `_estimate_error`: every one is
computed at the single shared tau set `sharedTaus mmt`. -/
def chopDevs (method : DevMethod) (mmt : FreqSeries) : List Adev :=
  (List.range 10).map (fun i => bareResult method (chop mmt 10 i) (sharedTaus mmt))

/-- The error band `_estimate_error` returns: the first chop's returned tau
axis, and `mean ∓ std/sqrt(10)` of the ten chops' deviation vectors,
elementwise. -/
def devBand (sqrtQ : ℚ → ℚ) (method : DevMethod) (mmt : FreqSeries) :
    List ℚ × List ℚ × List ℚ :=
  (((chopDevs method mmt).headD defaultAdev).taus,
   List.zipWith (fun a b => a - b)
     (colwise meanQ ((chopDevs method mmt).map (fun d => d.devs)))
     ((colwise (fun c => sqrtQ (varQ c)) ((chopDevs method mmt).map (fun d => d.devs))).map
       (fun x => x / sqrtQ 10)),
   List.zipWith (fun a b => a + b)
     (colwise meanQ ((chopDevs method mmt).map (fun d => d.devs)))
     ((colwise (fun c => sqrtQ (varQ c)) ((chopDevs method mmt).map (fun d => d.devs))).map
       (fun x => x / sqrtQ 10)))

/-- `scipy.signal.welch`, abstract: maps (data, rate, nperseg, nfft) to the
(frequency bins, power values) pair.  `nperseg`/`nfft` are rationals because
`2**(n_pow-5)` is a Python float when the exponent is negative. -/
def WelchFn : Type := List ℚ → ℚ → ℚ → ℚ → List ℚ × List ℚ

/-- The `Asd` named tuple of `statistics.py`. -/
structure Asd where
  measurement : FreqSeries
  freqs : List ℚ
  ampls : List ℚ
  errors : Option (List ℚ × List ℚ × List ℚ)

/-- `asd(..., estimate_error=False)`: with `n_pow = int(np.log2(len(data)))`,
call Welch with `nperseg=2**(n_pow-5)` and `nfft=2**(n_pow-3)`, drop the
first `drop_head` bins, and report the square root of the remaining power
values. -/
def asdBare (welch : WelchFn) (sqrtQ : ℚ → ℚ) (mmt : FreqSeries) (drop_head : ℕ) : Asd :=
  ⟨mmt,
   (welch (mmt.data.map (fun x => x.val)) mmt.rate
     ((2 : ℚ) ^ ((Nat.log2 mmt.data.length : ℤ) - 5))
     ((2 : ℚ) ^ ((Nat.log2 mmt.data.length : ℤ) - 3))).1.drop drop_head,
   ((welch (mmt.data.map (fun x => x.val)) mmt.rate
     ((2 : ℚ) ^ ((Nat.log2 mmt.data.length : ℤ) - 5))
     ((2 : ℚ) ^ ((Nat.log2 mmt.data.length : ℤ) - 3))).2.drop drop_head).map sqrtQ,
   none⟩

/-- The `AssertionError` of `asd._estimate_error`'s
`assert np.array_equal(density.freqs, asds[0].freqs)`. -/
inductive AsdError
  | assertionFailed

/-- `asd._estimate_error(mmt, n_chops)`: per-chop bare ASDs (each at
`drop_head = 6`, the default of the recursive call), the bin-grid assertion,
then the same mean/std band construction as the deviation case. -/
def asdEstimateError (welch : WelchFn) (sqrtQ : ℚ → ℚ) (mmt : FreqSeries)
    (n_chops : ℕ) : Except AsdError (List ℚ × List ℚ × List ℚ) :=
  let asds := (List.range n_chops).map (fun idx => asdBare welch sqrtQ (chop mmt n_chops idx) 6)
  if asds.all (fun d => decide (d.freqs = (asds.headD ⟨defaultFS, [], [], none⟩).freqs)) then
    .ok ((asds.headD ⟨defaultFS, [], [], none⟩).freqs,
      List.zipWith (fun a b => a - b)
        (colwise meanQ (asds.map (fun d => d.ampls)))
        ((colwise (fun c => sqrtQ (varQ c)) (asds.map (fun d => d.ampls))).map
          (fun x => x / sqrtQ ((n_chops : ℕ) : ℚ))),
      List.zipWith (fun a b => a + b)
        (colwise meanQ (asds.map (fun d => d.ampls)))
        ((colwise (fun c => sqrtQ (varQ c)) (asds.map (fun d => d.ampls))).map
          (fun x => x / sqrtQ ((n_chops : ℕ) : ℚ))))
  else .error .assertionFailed

/-- `asd(measurement, estimate_error, drop_head)`. -/
def asd (welch : WelchFn) (sqrtQ : ℚ → ℚ) (mmt : FreqSeries)
    (estimate_error : Bool) (drop_head : ℕ) : Except AsdError Asd :=
  match estimate_error with
  | false => .ok (asdBare welch sqrtQ mmt drop_head)
  | true =>
    match asdEstimateError welch sqrtQ mmt 10 with
    | .error e => .error e
    | .ok band => .ok { asdBare welch sqrtQ mmt drop_head with errors := some band }

/-! ## plotter.py -/

/-- The four dash patterns of `_get_style_cycler()`:
`['-', '-.', '--', (0, [5, 1, 1, 1, 1, 1])]`. -/
inductive LineStyle
  | solid
  | dashdot
  | dashed
  | dashdotdotted
deriving DecidableEq

/-- The fixed 4-entry line-style cycle. -/
def styles : List LineStyle := [.solid, .dashdot, .dashed, .dashdotdotted]

/-- The `_generate_line_props.prev_style` static dict: the color taken for
the current session (as the index of the draw from the axes' rotating color
cycler), the session label, and the position of the style cycle (number of
`next()` calls already taken). -/
structure PrevStyle where
  color : ℕ
  session : Option String
  styleIdx : ℕ
deriving DecidableEq

/-- Mutable plotting state: the static `prev_style` and the state of the
axes' color prop cycler (modelled by how many colors were drawn from the
rotating palette; distinct draw indices are distinct palette draws). -/
structure PlotState where
  prev_style : Option PrevStyle
  colorDraws : ℕ
deriving DecidableEq

/-- The `(linestyle, color)` dict returned by `_generate_line_props`. -/
structure LineProps where
  linestyle : LineStyle
  color : ℕ
deriving DecidableEq

/-- The fresh state before any call (`prev_style = None`). -/
def initialPlotState : PlotState := ⟨none, 0⟩

/-- `_generate_line_props(mmt)`: on the first call or a session change, draw
the next palette color and restart the style cycle; otherwise keep the color
and advance the style cycle (wrapping after the 4 entries).  Returns the
emitted props and the updated state. -/
def _generate_line_props (st : PlotState) (session : Option String) :
    LineProps × PlotState :=
  match st.prev_style with
  | some p =>
    if p.session = session then
      (⟨styles.getD (p.styleIdx % 4) LineStyle.solid, p.color⟩,
       ⟨some ⟨p.color, p.session, p.styleIdx + 1⟩, st.colorDraws⟩)
    else
      (⟨styles.getD 0 LineStyle.solid, st.colorDraws⟩,
       ⟨some ⟨st.colorDraws, session, 1⟩, st.colorDraws + 1⟩)
  | none =>
    (⟨styles.getD 0 LineStyle.solid, st.colorDraws⟩,
     ⟨some ⟨st.colorDraws, session, 1⟩, st.colorDraws + 1⟩)

/-- A sequence of `_generate_line_props` calls from the initial state,
collecting the emitted styles. -/
def runStyles (labels : List (Option String)) : List LineProps :=
  (labels.foldl
    (fun (acc : List LineProps × PlotState) s =>
      ((acc.1 ++ [(_generate_line_props acc.2 s).1]), (_generate_line_props acc.2 s).2))
    ([], initialPlotState)).1

/-! ## Concrete instances used by counterexamples and witnesses -/

/-- A 25-sample uniform series (times 0..24, rate 1, regularity 1): its
length is NOT divisible by the 10 chops. -/
def s25 : FreqSeries := ⟨(List.range 25).map (fun k => ⟨(k : ℚ), 0⟩), none, none, 1, 1⟩

/-- A 20-sample uniform series (times 0..19, values 1). -/
def s20 : FreqSeries := ⟨(List.range 20).map (fun k => ⟨(k : ℚ), 1⟩), none, none, 1, 1⟩

/-- The 20-sample series with `original_frequency = 2` set. -/
def s20f : FreqSeries := ⟨(List.range 20).map (fun k => ⟨(k : ℚ), 1⟩), some 2, none, 1, 1⟩

/-- A 5-sample series (used to trim below the 2-sample minimum). -/
def s5 : FreqSeries := ⟨(List.range 5).map (fun k => ⟨(k : ℚ), 0⟩), none, none, 1, 1⟩

/-- A series whose stored regularity sits exactly at the default tolerance. -/
def s105 : FreqSeries := ⟨[⟨0, 0⟩, ⟨1, 0⟩], none, none, 1, ((21 / 20 : ℚ) : WithTop ℚ)⟩

/-- Samples with two EQUAL consecutive timestamps (0, 0, 1, 2). -/
def dupSamples : List Sample := [⟨0, 1⟩, ⟨0, 2⟩, ⟨1, 3⟩, ⟨2, 4⟩]

/-- Strictly increasing 3-sample input. -/
def strictSamples : List Sample := [⟨0, 1⟩, ⟨1, 1⟩, ⟨2, 1⟩]

/-- Samples 0,1,2,3,10: uniform head, one long gap at the end. -/
def irregSamples : List Sample := [⟨0, 0⟩, ⟨1, 0⟩, ⟨2, 0⟩, ⟨3, 0⟩, ⟨10, 0⟩]

/-- The series construction yields for `irregSamples`: rate 1 (median
interval 1) and regularity `max(7/1, 1/1) = 7`. -/
def irregFS : FreqSeries := ⟨irregSamples, none, none, 1, ((7 : ℚ) : WithTop ℚ)⟩

/-- A trivial concrete square root stand-in (used only to discharge witness
hypotheses; the claims hold for every `sqrtQ`). -/
def sqZero : ℚ → ℚ := fun _ => 0

/-- A trivial concrete deviation estimator for witnesses. -/
def m0 : DevMethod := ⟨"oadev", fun data _ t => ([t.start], [data.sum])⟩

/-- A trivial concrete Welch estimator for witnesses: 8 bins. -/
def welchC : WelchFn := fun _ _ _ _ =>
  ([0, 1, 2, 3, 4, 5, 6, 7], [0, 1, 4, 9, 16, 25, 36, 49])

/-! ## Theorems -/

/-- C10: `trim(end=0)` empties the series (`iloc[:-0]` is the empty slice),
unlike `trim(end=None)` which is a no-op; the jackknife error estimation
reaches this case at its last chop index (`idx = 9` gives
`end=(10-9-1)*slice_length = 0`), so the last chop is always empty. -/
theorem claim10 (s mmt : FreqSeries) :
    (s.trim none (some 0)).data = []
    ∧ s.trim none none = s
    ∧ (chop mmt 10 9).data = [] := by
  refine ⟨rfl, rfl, ?_⟩
  simp [chop, FreqSeries.trim]

/-- C5 (amended): `trim` does NOT recompute anything: the stored
`sample_rate` and `sampling_regularity` of the trimmed series are the
construction-time values of the original series, unchanged. -/
theorem claim5_amended (s : FreqSeries) (a b : Option ℕ) :
    (s.trim a b).rate = s.rate ∧ (s.trim a b).regularity = s.regularity :=
  ⟨rfl, rfl⟩

/-- C5 (counterexample): for the series built from timestamps 0,1,2,3,10
(stored regularity 7), trimming the final sample leaves
`sampling_regularity = 7` while recomputing on the trimmed data would give
regularity 1 (and would be the only way to "reflect only the remaining
samples"): the claim that trim recomputes rate/regularity is false. -/
theorem claim5_counterexample :
    FreqSeries.construct irregSamples none none = .ok irregFS
    ∧ (irregFS.trim none (some 1)).regularity = ((7 : ℚ) : WithTop ℚ)
    ∧ (irregFS.trim none (some 1)).rate = 1
    ∧ analyzeSampleRate (irregFS.trim none (some 1)).data = .ok (1, ((1 : ℚ) : WithTop ℚ))
    ∧ ((7 : ℚ) : WithTop ℚ) ≠ ((1 : ℚ) : WithTop ℚ) := by
  have hmono : isMonotonicIncreasing (times irregSamples) = true := by
    norm_num [isMonotonicIncreasing, times, irregSamples]
  have hdiffs : diffs (times irregSamples) = [1, 1, 1, 7] := by
    norm_num [diffs, times, irregSamples]
  have hmed : median [1, 1, 1, 7] = 1 := by
    norm_num [median, isort, ins]
  have htrim : (irregFS.trim none (some 1)).data = [⟨0, 0⟩, ⟨1, 0⟩, ⟨2, 0⟩, ⟨3, 0⟩] := by
    simp [FreqSeries.trim, irregFS, irregSamples]
  have hdiffs2 : diffs (times [⟨0, 0⟩, ⟨1, 0⟩, ⟨2, 0⟩, ⟨3, 0⟩]) = [1, 1, 1] := by
    norm_num [diffs, times]
  have hmed2 : median [1, 1, 1] = 1 := by
    norm_num [median, isort, ins]
  refine ⟨?_, rfl, rfl, ?_, ?_⟩
  · unfold FreqSeries.construct analyzeSampleRate
    rw [hmono, hdiffs, hmed]
    norm_num [listMax, listMin, irregFS]
    simp
  · unfold analyzeSampleRate
    rw [htrim, hdiffs2, hmed2]
    norm_num [listMax, listMin]
    intro hempty
    exact absurd hempty (by simp)
  · intro h
    exact absurd (WithTop.coe_inj.mp h) (by norm_num)

/-- C6 (amended): `trim` removes `drop h` from the front when `start=h` is
given, and for `end=t` applies the Python slice `iloc[:-t]`: for `t > 0`
this keeps the first `length - t` samples, for `t = 0` it EMPTIES the
series.  Each side is a no-op when unset.  `trim` performs no length
validation and never raises, even when the result has fewer than 2 samples. -/
theorem claim6_amended (s : FreqSeries) (h t : ℕ) :
    s.trim none none = s
    ∧ (s.trim (some h) none).data = s.data.drop h
    ∧ (s.trim none (some t)).data
        = (if t = 0 then [] else s.data.take (s.data.length - t))
    ∧ (s.trim (some h) (some t)).data
        = (if t = 0 then [] else (s.data.drop h).take ((s.data.drop h).length - t)) :=
  ⟨rfl, rfl, rfl, rfl⟩

/-- C6 (counterexample): trimming a 5-sample series with
`trim(start=2, end=2)` returns normally with a 1-sample series — below the
claimed 2-sample minimum — instead of failing with an error: `trim` has no
failure path at all. -/
theorem claim6_counterexample :
    s5.data.length = 5 ∧ (s5.trim (some 2) (some 2)).data.length = 1 := by decide

/-- C1 (amended): with `L = floor(n/10)` and `L ≥ 1`, chop `i` for `i < 9`
consists of the samples in the window `[i*L, n - (9-i)*L)` — every such chop
has length `n - 9*L = L + (n mod 10)`, so consecutive chops OVERLAP by
`n mod 10` samples when 10 does not divide `n` — and the last chop (`i = 9`)
is empty, because its tail-trim argument is `0` and `iloc[:-0]` empties the
series. -/
theorem claim1_amended (mmt : FreqSeries) (i : ℕ) (hi : i < 9)
    (hL : 1 ≤ mmt.data.length / 10) :
    (chop mmt 10 i).data
        = (mmt.data.drop (i * (mmt.data.length / 10))).take
            (mmt.data.length - 9 * (mmt.data.length / 10))
    ∧ (chop mmt 10 i).data.length
        = mmt.data.length - 9 * (mmt.data.length / 10)
    ∧ (chop mmt 10 i).data ≠ []
    ∧ (chop mmt 10 9).data = [] := by
  have h9 : i + (10 - i - 1) = 9 := by omega
  have hkey : i * (mmt.data.length / 10) + (10 - i - 1) * (mmt.data.length / 10)
      = 9 * (mmt.data.length / 10) := by
    rw [← Nat.add_mul, h9]
  have hB : (10 - i - 1) * (mmt.data.length / 10) ≠ 0 := by
    have h1 : 1 ≤ 10 - i - 1 := by omega
    have := Nat.mul_le_mul h1 hL
    omega
  have hdata : (chop mmt 10 i).data
      = (mmt.data.drop (i * (mmt.data.length / 10))).take
          (mmt.data.length - 9 * (mmt.data.length / 10)) := by
    simp only [chop, FreqSeries.trim]
    rw [if_neg hB, List.length_drop]
    congr 1
    generalize hA : i * (mmt.data.length / 10) = A at hkey ⊢
    generalize hBB : (10 - i - 1) * (mmt.data.length / 10) = B at hkey ⊢
    omega
  have hlen : (chop mmt 10 i).data.length
      = mmt.data.length - 9 * (mmt.data.length / 10) := by
    rw [hdata, List.length_take, List.length_drop]
    generalize hA : i * (mmt.data.length / 10) = A at hkey ⊢
    generalize hBB : (10 - i - 1) * (mmt.data.length / 10) = B at hkey ⊢
    omega
  refine ⟨hdata, hlen, ?_, ?_⟩
  · apply List.ne_nil_of_length_pos
    rw [hlen]
    omega
  · simp [chop, FreqSeries.trim]

/-- C1 (counterexample): for a 25-sample series (`L = 2`), chop 0 has 7
samples, not the 2 of the claimed window `[0, 2)`, and chop 9 is empty, not
the claimed non-empty window `[18, 25)`: the chops are neither
non-overlapping, nor equal to the claimed windows, nor all non-empty. -/
theorem claim1_counterexample :
    s25.data.length = 25
    ∧ (chop s25 10 0).data.length = 7
    ∧ (chop s25 10 9).data = [] := by decide

/-- The diff list is one shorter than its input. -/
theorem diffs_length : ∀ l : List ℚ, (diffs l).length = l.length - 1
  | [] => rfl
  | [_] => rfl
  | a :: b :: rest => by
    rw [diffs, List.length_cons, diffs_length (b :: rest)]
    simp

/-- Strict monotonicity implies the pandas non-strict check. -/
theorem strict_imp_mono :
    ∀ l : List ℚ, strictlyIncreasing l = true → isMonotonicIncreasing l = true
  | [], _ => rfl
  | [_], _ => rfl
  | a :: b :: rest, h => by
    rw [strictlyIncreasing] at h
    rw [isMonotonicIncreasing]
    simp only [Bool.and_eq_true, decide_eq_true_eq] at h ⊢
    exact ⟨le_of_lt h.1, strict_imp_mono (b :: rest) h.2⟩

/-- Strictly increasing timestamps have strictly positive diffs. -/
theorem diffs_pos :
    ∀ l : List ℚ, strictlyIncreasing l = true → ∀ x ∈ diffs l, 0 < x
  | [], _, x, hx => absurd hx (by simp [diffs])
  | [_], _, x, hx => absurd hx (by simp [diffs])
  | a :: b :: rest, h, x, hx => by
    rw [strictlyIncreasing] at h
    simp only [Bool.and_eq_true, decide_eq_true_eq] at h
    rw [diffs] at hx
    rcases List.mem_cons.mp hx with h1 | h2
    · rw [h1]
      exact sub_pos.mpr h.1
    · exact diffs_pos (b :: rest) h.2 x h2

/-- Sorted insertion grows the length by one. -/
theorem ins_length (x : ℚ) : ∀ l : List ℚ, (ins x l).length = l.length + 1
  | [] => rfl
  | y :: ys => by
    rw [ins]
    by_cases h : x ≤ y
    · rw [if_pos h]
      rfl
    · rw [if_neg h]
      simp [ins_length x ys]

/-- Members of an insertion are the inserted element or old members. -/
theorem ins_mem (x : ℚ) : ∀ (l : List ℚ) (z : ℚ), z ∈ ins x l → z = x ∨ z ∈ l
  | [], z, hz => Or.inl (by simpa [ins] using hz)
  | y :: ys, z, hz => by
    rw [ins] at hz
    by_cases h : x ≤ y
    · rw [if_pos h] at hz
      rcases List.mem_cons.mp hz with h1 | h2
      · exact Or.inl h1
      · exact Or.inr h2
    · rw [if_neg h] at hz
      rcases List.mem_cons.mp hz with h1 | h2
      · exact Or.inr (by rw [h1]; exact List.mem_cons_self y ys)
      · rcases ins_mem x ys z h2 with h3 | h4
        · exact Or.inl h3
        · exact Or.inr (List.mem_cons_of_mem y h4)

/-- Insertion sort preserves length. -/
theorem isort_length : ∀ l : List ℚ, (isort l).length = l.length
  | [] => rfl
  | x :: xs => by rw [isort, ins_length, isort_length xs, List.length_cons]

/-- Insertion sort produces only members of the input. -/
theorem isort_mem : ∀ (l : List ℚ) (z : ℚ), z ∈ isort l → z ∈ l
  | [], z, hz => absurd hz (by simp [isort])
  | x :: xs, z, hz => by
    rw [isort] at hz
    rcases ins_mem x (isort xs) z hz with h1 | h2
    · rw [h1]
      exact List.mem_cons_self x xs
    · exact List.mem_cons_of_mem x (isort_mem xs z h2)

/-- The median of a nonempty list of positive rationals is positive. -/
theorem median_pos (l : List ℚ) (hne : l ≠ []) (hpos : ∀ x ∈ l, 0 < x) :
    0 < median l := by
  have hlen : (isort l).length = l.length := isort_length l
  have hlp : 0 < l.length := List.length_pos.mpr hne
  have hposs : ∀ x ∈ isort l, 0 < x := fun x hx => hpos x (isort_mem l x hx)
  rw [median]
  by_cases hodd : l.length % 2 = 1
  · rw [if_pos hodd]
    have hidx : l.length / 2 < (isort l).length := by rw [hlen]; omega
    rw [List.getD_eq_getElem _ _ hidx]
    exact hposs _ (List.getElem_mem hidx)
  · rw [if_neg hodd]
    have hidx1 : l.length / 2 - 1 < (isort l).length := by rw [hlen]; omega
    have hidx2 : l.length / 2 < (isort l).length := by rw [hlen]; omega
    rw [List.getD_eq_getElem _ _ hidx1, List.getD_eq_getElem _ _ hidx2]
    have h1 := hposs _ (List.getElem_mem hidx1)
    have h2 := hposs _ (List.getElem_mem hidx2)
    exact div_pos (add_pos h1 h2) (by norm_num)

/-- Exactly when construction raises: the pandas monotonicity check fails,
or there are fewer than 2 samples (zero-size diff array), or the median
inter-sample interval is zero. -/
theorem construct_error_iff (samples : List Sample) (o : Option ℚ) (s : Option String) :
    (∃ e, FreqSeries.construct samples o s = .error e) ↔
      (isMonotonicIncreasing (times samples) = false
       ∨ samples.length < 2
       ∨ median (diffs (times samples)) = 0) := by
  have hdn : diffs (times samples) = [] ↔ samples.length < 2 := by
    rw [← List.length_eq_zero, diffs_length, times, List.length_map]
    omega
  unfold FreqSeries.construct analyzeSampleRate
  by_cases hm : isMonotonicIncreasing (times samples) = false
  · simp [hm]
  · rw [if_neg hm]
    by_cases hd : diffs (times samples) = []
    · rw [if_pos hd]
      simp [hm, hdn.mp hd]
    · rw [if_neg hd]
      have hd2 : ¬ samples.length < 2 := fun hcon => hd (hdn.mpr hcon)
      by_cases hmed : median (diffs (times samples)) = 0
      · rw [if_pos hmed]
        simp [hm, hmed]
      · rw [if_neg hmed]
        simp [hm, hd2, hmed]

/-- C4 (amended): construction fails exactly when the timestamps are not
NON-strictly monotonically increasing, or fewer than 2 samples are given,
or the median inter-sample interval is zero (`notMonotonic`/`tooFewSamples`
surface as `ValueError`, `zeroMedian` as `ZeroDivisionError`); every
strictly increasing input with at least 2 samples succeeds.  Equal
consecutive timestamps alone do NOT cause a failure: the pandas
`is_monotonic_increasing` check is non-strict. -/
theorem claim4_amended (samples : List Sample) (o : Option ℚ) (s : Option String) :
    ((∃ e, FreqSeries.construct samples o s = .error e) ↔
       (isMonotonicIncreasing (times samples) = false
        ∨ samples.length < 2
        ∨ median (diffs (times samples)) = 0))
    ∧ (strictlyIncreasing (times samples) = true → 2 ≤ samples.length →
        (FreqSeries.construct samples o s).isOk = true) := by
  refine ⟨construct_error_iff samples o s, ?_⟩
  intro hstrict hlen2
  have hmono := strict_imp_mono _ hstrict
  have hdne : diffs (times samples) ≠ [] := by
    apply List.ne_nil_of_length_pos
    rw [diffs_length, times, List.length_map]
    omega
  have hnoerr : ¬ ∃ e, FreqSeries.construct samples o s = .error e := by
    rw [construct_error_iff]
    push_neg
    refine ⟨by simp [hmono], by omega, ?_⟩
    exact ne_of_gt (median_pos _ hdne (diffs_pos _ hstrict))
  cases hc : FreqSeries.construct samples o s with
  | error e => exact absurd ⟨e, hc⟩ hnoerr
  | ok a => rfl

/-- C4 (counterexample): the input with timestamps 0, 0, 1, 2 has two EQUAL
consecutive timestamps (so it is not strictly increasing), yet construction
SUCCEEDS: the claim that such inputs are rejected is false. -/
theorem claim4_counterexample :
    strictlyIncreasing (times dupSamples) = false
    ∧ (times dupSamples).getD 0 0 = (times dupSamples).getD 1 0
    ∧ (FreqSeries.construct dupSamples none none).isOk = true := by
  refine ⟨?_, ?_, ?_⟩
  · norm_num [strictlyIncreasing, times, dupSamples]
  · norm_num [times, dupSamples]
  · have hmono : isMonotonicIncreasing (times dupSamples) = true := by
      norm_num [isMonotonicIncreasing, times, dupSamples]
    have hdiffs : diffs (times dupSamples) = [0, 1, 1] := by
      norm_num [diffs, times, dupSamples]
    have hmed : median [0, 1, 1] = 1 := by
      norm_num [median, isort, ins]
    unfold FreqSeries.construct analyzeSampleRate
    rw [hmono, hdiffs, hmed]
    norm_num
    simp
    rfl

/-- C4 (witness for the amended claim at a concrete input). -/
theorem claim4_amended_witness :
    (strictlyIncreasing (times strictSamples) = true ∧ 2 ≤ strictSamples.length)
    ∧ (FreqSeries.construct strictSamples none none).isOk = true :=
  ⟨⟨by norm_num [strictlyIncreasing, times, strictSamples], by decide⟩,
   (claim4_amended strictSamples none none).2
     (by norm_num [strictlyIncreasing, times, strictSamples]) (by decide)⟩

/-- C1 (witness for the amended claim at a concrete input). -/
theorem claim1_amended_witness :
    (0 < 9 ∧ 1 ≤ s25.data.length / 10)
    ∧ ((chop s25 10 0).data
          = (s25.data.drop (0 * (s25.data.length / 10))).take
              (s25.data.length - 9 * (s25.data.length / 10))
       ∧ (chop s25 10 0).data.length
          = s25.data.length - 9 * (s25.data.length / 10)
       ∧ (chop s25 10 0).data ≠ []
       ∧ (chop s25 10 9).data = []) :=
  ⟨⟨by decide, by decide⟩, claim1_amended s25 0 (by decide) (by decide)⟩

/-- `chop` (i.e. `deepcopy` + `trim`) leaves the stored regularity intact. -/
theorem chop_regularity (mmt : FreqSeries) (n i : ℕ) :
    (chop mmt n i).regularity = mmt.regularity := rfl

/-- When the regularity gate passes, the bare deviation call with explicit
taus returns the explicit result. -/
theorem deviationBare_ok_some (method : DevMethod) (mmt : FreqSeries) (t : TauSpec)
    (allow : ℚ) (h : ¬ mmt.regularity > ((allow : ℚ) : WithTop ℚ)) :
    deviationBare method mmt (some t) allow = .ok (bareResult method mmt t) := by
  rw [deviationBare, if_neg h]

/-- When the regularity gate passes, the bare deviation call without taus
generates them with `until=.01`. -/
theorem deviationBare_ok_none (method : DevMethod) (mmt : FreqSeries)
    (allow : ℚ) (h : ¬ mmt.regularity > ((allow : ℚ) : WithTop ℚ)) :
    deviationBare method mmt none allow
      = .ok (bareResult method mmt (generate_taus mmt 300 (1 / 100))) := by
  rw [deviationBare, if_neg h]

/-- A simp-friendly restatement: passing the gate on the original series
also passes it on every chop (the stored regularity is untouched). -/
theorem deviationBare_chop_ok (method : DevMethod) (mmt : FreqSeries) (allow : ℚ)
    (h : ¬ mmt.regularity > ((allow : ℚ) : WithTop ℚ)) (n i : ℕ) (t : TauSpec) :
    deviationBare method (chop mmt n i) (some t) allow
      = .ok (bareResult method (chop mmt n i) t) :=
  deviationBare_ok_some method (chop mmt n i) t allow h

/-- Once the shared tau set is fixed, the chop loop computes one bare result
per chop index, all at that same tau set. -/
theorem chopLoop_ok (method : DevMethod) (allow : ℚ) (mmt : FreqSeries) (n : ℕ)
    (h : ¬ mmt.regularity > ((allow : ℚ) : WithTop ℚ)) :
    ∀ (idxs : List ℕ) (t : TauSpec) (acc : List Adev),
      chopLoop method allow mmt n idxs (some t) acc =
        .ok (acc ++ idxs.map (fun i => bareResult method (chop mmt n i) t)) := by
  intro idxs
  induction idxs with
  | nil =>
    intro t acc
    simp [chopLoop]
  | cons i rest ih =>
    intro t acc
    simp only [chopLoop, deviationBare_chop_ok method mmt allow h, ih]
    simp

/-- When the gate passes, `_estimate_error` succeeds and returns exactly the
band of `devBand`: ten per-chop bare results at the single tau set generated
from chop 0, reduced elementwise to `mean ∓ std/sqrt(10)`. -/
theorem estimateError_ok (sqrtQ : ℚ → ℚ) (method : DevMethod) (allow : ℚ)
    (mmt : FreqSeries) (h : ¬ mmt.regularity > ((allow : ℚ) : WithTop ℚ)) :
    estimateError sqrtQ method allow mmt 10 = .ok (devBand sqrtQ method mmt) := by
  have hrange : List.range 10 = 0 :: [1, 2, 3, 4, 5, 6, 7, 8, 9] := rfl
  simp only [estimateError, hrange, chopLoop,
    deviationBare_chop_ok method mmt allow h,
    chopLoop_ok method allow mmt 10 h]
  simp [devBand, chopDevs, sharedTaus, hrange]

/-- When the gate passes, the full `deviation(..., estimate_error=True)`
returns the bare result with the jackknife band attached. -/
theorem deviation_true_eq (sqrtQ : ℚ → ℚ) (method : DevMethod) (mmt : FreqSeries)
    (allow : ℚ) (h : ¬ mmt.regularity > ((allow : ℚ) : WithTop ℚ)) :
    deviation sqrtQ method mmt true none allow =
      .ok { bareResult method mmt (generate_taus mmt 300 (1 / 100)) with
            errors := some (devBand sqrtQ method mmt) } := by
  simp only [deviation, deviationBare_ok_none method mmt allow h,
    estimateError_ok sqrtQ method allow mmt h]

/-- C2: with `estimate_error=True` (and the regularity gate passing), every
one of the 10 internal per-chop deviation computations is invoked at the one
shared tau set generated once from the first chop (see `chopDevs`, which
passes `sharedTaus mmt` to every chop index), and the returned error band is
`(devs[0].taus, m - s, m + s)` for `m` the elementwise mean of the chops'
deviation vectors and `s` their elementwise standard deviation divided by
`sqrt(10)` (see `devBand`). -/
theorem claim2 (sqrtQ : ℚ → ℚ) (method : DevMethod) (mmt : FreqSeries) (allow : ℚ)
    (h : ¬ mmt.regularity > ((allow : ℚ) : WithTop ℚ)) :
    deviation sqrtQ method mmt true none allow =
      .ok { bareResult method mmt (generate_taus mmt 300 (1 / 100)) with
            errors := some (devBand sqrtQ method mmt) } :=
  deviation_true_eq sqrtQ method mmt allow h

/-- The uniform 20-sample series passes the default regularity gate. -/
theorem gate_s20 : ¬ s20.regularity > ((21 / 20 : ℚ) : WithTop ℚ) := by
  intro hcon
  rw [show s20.regularity = ((1 : ℚ) : WithTop ℚ) from rfl] at hcon
  exact absurd (WithTop.coe_lt_coe.mp hcon) (by norm_num)

/-- C2 (witness at a concrete input). -/
theorem claim2_witness :
    (¬ s20.regularity > ((21 / 20 : ℚ) : WithTop ℚ))
    ∧ deviation sqZero m0 s20 true none (21 / 20) =
        .ok { bareResult m0 s20 (generate_taus s20 300 (1 / 100)) with
              errors := some (devBand sqZero m0 s20) } :=
  ⟨gate_s20, claim2 sqZero m0 s20 (21 / 20) gate_s20⟩

/-- C7: `deviation` raises the irregular-sampling `ValueError` exactly when
`sampling_regularity > allowable_irregularity`, and a series sitting exactly
at the tolerance passes. -/
theorem claim7 (sqrtQ : ℚ → ℚ) (method : DevMethod) (mmt : FreqSeries) (allow : ℚ) :
    ((∃ e, deviation sqrtQ method mmt true none allow = .error e)
        ↔ mmt.regularity > ((allow : ℚ) : WithTop ℚ))
    ∧ (mmt.regularity = ((allow : ℚ) : WithTop ℚ) →
        (deviation sqrtQ method mmt true none allow).isOk = true) := by
  constructor
  · constructor
    · rintro ⟨e, he⟩
      by_contra hno
      rw [deviation_true_eq sqrtQ method mmt allow hno] at he
      cases he
    · intro hg
      refine ⟨.irregularSampling mmt.regularity, ?_⟩
      simp only [deviation, deviationBare]
      rw [if_pos hg]
  · intro heq
    have hno : ¬ mmt.regularity > ((allow : ℚ) : WithTop ℚ) := by
      rw [heq]
      exact lt_irrefl _
    rw [deviation_true_eq sqrtQ method mmt allow hno]
    rfl

/-- C7 (witness): a series with stored regularity exactly 1.05 passes. -/
theorem claim7_witness :
    s105.regularity = ((21 / 20 : ℚ) : WithTop ℚ)
    ∧ (deviation sqZero m0 s105 true none (21 / 20)).isOk = true :=
  ⟨rfl, (claim7 sqZero m0 s105 (21 / 20)).2 rfl⟩

/-- `getD` with default 0 commutes with pointwise division. -/
theorem getD_map_div (l : List ℚ) (f : ℚ) (j : ℕ) :
    (l.map (fun x => x / f)).getD j 0 = l.getD j 0 / f := by
  induction l generalizing j with
  | nil => simp
  | cons a tl ih =>
    cases j with
    | zero => rfl
    | succ k => simpa using ih k

/-- Sums commute with pointwise division. -/
theorem sum_map_div (l : List ℚ) (f : ℚ) :
    (l.map (fun x => x / f)).sum = l.sum / f := by
  induction l with
  | nil => simp
  | cons a tl ih => simp [ih, add_div]

/-- The mean commutes with pointwise division. -/
theorem meanQ_map_div (l : List ℚ) (f : ℚ) :
    meanQ (l.map (fun x => x / f)) = meanQ l / f := by
  rw [meanQ, meanQ, sum_map_div, List.length_map, div_right_comm]

/-- The population variance of a list divided by `f` is the variance
divided by `f²`. -/
theorem varQ_map_div (l : List ℚ) (f : ℚ) :
    varQ (l.map (fun x => x / f)) = varQ l / f ^ 2 := by
  rw [varQ, varQ, meanQ_map_div, List.map_map]
  have h1 : ((fun x => (x - meanQ l / f) ^ 2) ∘ fun x => x / f)
      = fun x => ((x - meanQ l) ^ 2) / f ^ 2 := by
    funext x
    simp only [Function.comp]
    rw [div_sub_div_same, div_pow]
  rw [h1]
  rw [show (fun x => ((x - meanQ l) ^ 2) / f ^ 2)
      = ((fun y => y / f ^ 2) ∘ fun x => (x - meanQ l) ^ 2) from rfl]
  rw [← List.map_map, meanQ_map_div]

/-- The population variance is nonnegative. -/
theorem varQ_nonneg (l : List ℚ) : 0 ≤ varQ l := by
  rw [varQ, meanQ]
  apply div_nonneg
  · apply List.sum_nonneg
    intro x hx
    rcases List.mem_map.mp hx with ⟨y, _, rfl⟩
    positivity
  · positivity

/-- Elementwise subtraction commutes with pointwise division. -/
theorem zipWith_sub_map_div (l1 l2 : List ℚ) (f : ℚ) :
    List.zipWith (fun a b => a - b) (l1.map (fun x => x / f)) (l2.map (fun x => x / f))
      = (List.zipWith (fun a b => a - b) l1 l2).map (fun x => x / f) := by
  induction l1 generalizing l2 with
  | nil => simp
  | cons a tl ih =>
    cases l2 with
    | nil => simp
    | cons b tl2 => simp [ih, sub_div]

/-- Elementwise addition commutes with pointwise division. -/
theorem zipWith_add_map_div (l1 l2 : List ℚ) (f : ℚ) :
    List.zipWith (fun a b => a + b) (l1.map (fun x => x / f)) (l2.map (fun x => x / f))
      = (List.zipWith (fun a b => a + b) l1 l2).map (fun x => x / f) := by
  induction l1 generalizing l2 with
  | nil => simp
  | cons a tl ih =>
    cases l2 with
    | nil => simp
    | cons b tl2 => simp [ih, add_div]

/-- Columnwise reductions of a row matrix with all entries divided by `f`:
if the reduction transports division out (as `φ`), so does the whole
columnwise pass. -/
theorem colwise_scale (g : List ℚ → ℚ) (φ : ℚ → ℚ) (f : ℚ)
    (hg : ∀ c : List ℚ, g (c.map (fun x => x / f)) = φ (g c))
    (M : List (List ℚ)) :
    colwise g (M.map (List.map (fun x => x / f))) = (colwise g M).map φ := by
  have hlen : ((M.map (List.map (fun x => x / f))).headD []).length
      = (M.headD []).length := by
    cases M with
    | nil => rfl
    | cons r rs => simp
  rw [colwise, colwise, hlen, List.map_map]
  apply List.map_congr_left
  intro j _
  simp only [Function.comp]
  have hcol : (M.map (List.map (fun x => x / f))).map (fun r => r.getD j 0)
      = (M.map (fun r => r.getD j 0)).map (fun x => x / f) := by
    rw [List.map_map, List.map_map]
    apply List.map_congr_left
    intro r _
    simp only [Function.comp]
    exact getD_map_div r f j
  rw [hcol, hg]

/-- The per-chop deviation matrix of a series with `org_freq = f ≠ 0` set is
the unscaled (org_freq-less) matrix with every entry divided by `f`: each
recursive per-chop `deviation` call carries the copied `org_freq` and scales
its own deviations. -/
theorem chopDevs_scale (method : DevMethod) (mmt : FreqSeries) (f : ℚ)
    (hf : mmt.org_freq = some f) (hf0 : f ≠ 0) :
    (chopDevs method mmt).map (fun d => d.devs)
      = ((chopDevs method { mmt with org_freq := none }).map (fun d => d.devs)).map
          (List.map (fun x => x / f)) := by
  rw [chopDevs, chopDevs, List.map_map, List.map_map, List.map_map]
  apply List.map_congr_left
  intro i _
  simp only [Function.comp, bareResult]
  have horg : (chop mmt 10 i).org_freq = some f := hf
  have horg0 : (chop { mmt with org_freq := none } 10 i).org_freq = none := rfl
  rw [horg, horg0, scaleDevs, scaleDevs, if_neg hf0]
  rfl

/-- The jackknife band of a series with `org_freq = f > 0` set is the
unscaled band with both bounds divided by `f` (and the same tau row). -/
theorem devBand_scale (sqrtQ : ℚ → ℚ) (method : DevMethod) (mmt : FreqSeries) (f : ℚ)
    (hf : mmt.org_freq = some f) (hf0 : f ≠ 0)
    (hsqrt : ∀ q : ℚ, 0 ≤ q → sqrtQ (q / f ^ 2) = sqrtQ q / f) :
    devBand sqrtQ method mmt
      = ((devBand sqrtQ method { mmt with org_freq := none }).1,
         (devBand sqrtQ method { mmt with org_freq := none }).2.1.map (fun x => x / f),
         (devBand sqrtQ method { mmt with org_freq := none }).2.2.map (fun x => x / f)) := by
  have hM := chopDevs_scale method mmt f hf hf0
  have hmean := colwise_scale meanQ (fun x => x / f) f (fun c => meanQ_map_div c f)
    ((chopDevs method { mmt with org_freq := none }).map (fun d => d.devs))
  have hstd := colwise_scale (fun c => sqrtQ (varQ c)) (fun x => x / f) f
    (fun c => by
      show sqrtQ (varQ (c.map (fun x => x / f))) = sqrtQ (varQ c) / f
      rw [varQ_map_div, hsqrt (varQ c) (varQ_nonneg c)])
    ((chopDevs method { mmt with org_freq := none }).map (fun d => d.devs))
  have hcomm : ((colwise (fun c => sqrtQ (varQ c))
        ((chopDevs method { mmt with org_freq := none }).map (fun d => d.devs))).map
          (fun x => x / f)).map (fun x => x / sqrtQ 10)
      = ((colwise (fun c => sqrtQ (varQ c))
        ((chopDevs method { mmt with org_freq := none }).map (fun d => d.devs))).map
          (fun x => x / sqrtQ 10)).map (fun x => x / f) := by
    rw [List.map_map, List.map_map]
    apply List.map_congr_left
    intro x _
    simp only [Function.comp]
    exact div_right_comm x f (sqrtQ 10)
  rw [devBand, devBand, hM, hmean, hstd]
  refine congrArg₂ Prod.mk rfl (congrArg₂ Prod.mk ?_ ?_)
  · rw [hcomm, zipWith_sub_map_div]
  · rw [hcomm, zipWith_add_map_div]

/-- C3: when `original_frequency = f` is set (present and nonzero, matching
the Python truthiness test, with `f > 0` as physically meaningful), the full
deviation result is the result for the same series without
`original_frequency`, with the deviation values AND both error-band bounds
divided by `f` (the bounds are scaled because every recursive per-chop call
carries the copied `org_freq` and scales its own deviations); when
`original_frequency` is unset, no scaling is applied anywhere (the bare
result's deviations are the raw estimator output).  The hypothesis on
`sqrtQ` is the homogeneity `sqrt(q/f²) = sqrt(q)/f` of the real square
root. -/
theorem claim3 (sqrtQ : ℚ → ℚ) (method : DevMethod) (mmt : FreqSeries) (allow f : ℚ)
    (h : ¬ mmt.regularity > ((allow : ℚ) : WithTop ℚ))
    (hf : mmt.org_freq = some f) (hfpos : 0 < f)
    (hsqrt : ∀ q : ℚ, 0 ≤ q → sqrtQ (q / f ^ 2) = sqrtQ q / f) :
    (deviation sqrtQ method mmt true none allow =
      (deviation sqrtQ method { mmt with org_freq := none } true none allow).map
        (fun a => { a with
          measurement := mmt,
          devs := a.devs.map (fun x => x / f),
          errors := a.errors.map
            (fun b => (b.1, b.2.1.map (fun x => x / f), b.2.2.map (fun x => x / f))) }))
    ∧ (∀ t : TauSpec,
        (bareResult method { mmt with org_freq := none } t).devs
          = (method.run (mmt.data.map (fun x => x.val)) mmt.rate t).2) := by
  have h0 : ¬ ({ mmt with org_freq := none } : FreqSeries).regularity
      > ((allow : ℚ) : WithTop ℚ) := h
  refine ⟨?_, fun t => rfl⟩
  rw [deviation_true_eq sqrtQ method mmt allow h,
      deviation_true_eq sqrtQ method { mmt with org_freq := none } allow h0]
  simp only [Except.map]
  refine congrArg Except.ok ?_
  simp only [bareResult]
  rw [hf]
  simp only [scaleDevs, if_neg hfpos.ne', Option.map_some']
  rw [devBand_scale sqrtQ method mmt f hf hfpos.ne' hsqrt]
  rfl

/-- The 20-sample series with `org_freq = 2` passes the default gate. -/
theorem gate_s20f : ¬ s20f.regularity > ((21 / 20 : ℚ) : WithTop ℚ) := by
  intro hcon
  rw [show s20f.regularity = ((1 : ℚ) : WithTop ℚ) from rfl] at hcon
  exact absurd (WithTop.coe_lt_coe.mp hcon) (by norm_num)

/-- C3 (witness at a concrete input, `f = 2`). -/
theorem claim3_witness :
    (¬ s20f.regularity > ((21 / 20 : ℚ) : WithTop ℚ)
     ∧ s20f.org_freq = some 2
     ∧ (0 : ℚ) < 2)
    ∧ ((deviation sqZero m0 s20f true none (21 / 20) =
        (deviation sqZero m0 { s20f with org_freq := none } true none (21 / 20)).map
          (fun a => { a with
            measurement := s20f,
            devs := a.devs.map (fun x => x / 2),
            errors := a.errors.map
              (fun b => (b.1, b.2.1.map (fun x => x / 2), b.2.2.map (fun x => x / 2))) }))
       ∧ (∀ t : TauSpec,
          (bareResult m0 { s20f with org_freq := none } t).devs
            = (m0.run (s20f.data.map (fun x => x.val)) s20f.rate t).2)) :=
  ⟨⟨gate_s20f, rfl, by norm_num⟩,
   claim3 sqZero m0 s20f (21 / 20) 2 gate_s20f rfl (by norm_num)
     (fun q hq => by norm_num [sqZero])⟩

/-- C8: the ASD computation calls the Welch estimator with segment length
`2^(floor(log2 n) - 5)` and FFT length `2^(floor(log2 n) - 3)` (for `n` the
sample count, `n ≥ 1` so that `int(np.log2(n))` is the floor of `log2 n`),
and with `N` raw bins the result has exactly `N - drop_head` bins: the
frequencies are the raw bin array with its first `drop_head` entries
dropped, and the amplitudes are the elementwise square roots of the
corresponding raw power values. -/
theorem claim8 (welch : WelchFn) (sqrtQ : ℚ → ℚ) (mmt : FreqSeries) (drop_head N : ℕ)
    (hn : 1 ≤ mmt.data.length)
    (hfreqs : (welch (mmt.data.map (fun x => x.val)) mmt.rate
        ((2 : ℚ) ^ ((Nat.log2 mmt.data.length : ℤ) - 5))
        ((2 : ℚ) ^ ((Nat.log2 mmt.data.length : ℤ) - 3))).1.length = N)
    (hpowers : (welch (mmt.data.map (fun x => x.val)) mmt.rate
        ((2 : ℚ) ^ ((Nat.log2 mmt.data.length : ℤ) - 5))
        ((2 : ℚ) ^ ((Nat.log2 mmt.data.length : ℤ) - 3))).2.length = N)
    (hdrop : drop_head ≤ N) :
    asd welch sqrtQ mmt false drop_head
      = .ok ⟨mmt,
          (welch (mmt.data.map (fun x => x.val)) mmt.rate
            ((2 : ℚ) ^ ((Nat.log2 mmt.data.length : ℤ) - 5))
            ((2 : ℚ) ^ ((Nat.log2 mmt.data.length : ℤ) - 3))).1.drop drop_head,
          ((welch (mmt.data.map (fun x => x.val)) mmt.rate
            ((2 : ℚ) ^ ((Nat.log2 mmt.data.length : ℤ) - 5))
            ((2 : ℚ) ^ ((Nat.log2 mmt.data.length : ℤ) - 3))).2.drop drop_head).map sqrtQ,
          none⟩
    ∧ ((asd welch sqrtQ mmt false drop_head).toOption.getD
        ⟨defaultFS, [], [], none⟩).freqs.length = N - drop_head
    ∧ ((asd welch sqrtQ mmt false drop_head).toOption.getD
        ⟨defaultFS, [], [], none⟩).ampls.length = N - drop_head := by
  refine ⟨rfl, ?_, ?_⟩
  · show ((welch (mmt.data.map (fun x => x.val)) mmt.rate
        ((2 : ℚ) ^ ((Nat.log2 mmt.data.length : ℤ) - 5))
        ((2 : ℚ) ^ ((Nat.log2 mmt.data.length : ℤ) - 3))).1.drop drop_head).length
      = N - drop_head
    rw [List.length_drop, hfreqs]
  · show (((welch (mmt.data.map (fun x => x.val)) mmt.rate
        ((2 : ℚ) ^ ((Nat.log2 mmt.data.length : ℤ) - 5))
        ((2 : ℚ) ^ ((Nat.log2 mmt.data.length : ℤ) - 3))).2.drop drop_head).map sqrtQ).length
      = N - drop_head
    rw [List.length_map, List.length_drop, hpowers]

/-- C8 (witness at a concrete input: 8 raw bins, `drop_head = 6`). -/
theorem claim8_witness :
    (1 ≤ s20.data.length
     ∧ (welchC (s20.data.map (fun x => x.val)) s20.rate
          ((2 : ℚ) ^ ((Nat.log2 s20.data.length : ℤ) - 5))
          ((2 : ℚ) ^ ((Nat.log2 s20.data.length : ℤ) - 3))).1.length = 8
     ∧ (welchC (s20.data.map (fun x => x.val)) s20.rate
          ((2 : ℚ) ^ ((Nat.log2 s20.data.length : ℤ) - 5))
          ((2 : ℚ) ^ ((Nat.log2 s20.data.length : ℤ) - 3))).2.length = 8
     ∧ 6 ≤ 8)
    ∧ (asd welchC sqZero s20 false 6
        = .ok ⟨s20,
            (welchC (s20.data.map (fun x => x.val)) s20.rate
              ((2 : ℚ) ^ ((Nat.log2 s20.data.length : ℤ) - 5))
              ((2 : ℚ) ^ ((Nat.log2 s20.data.length : ℤ) - 3))).1.drop 6,
            ((welchC (s20.data.map (fun x => x.val)) s20.rate
              ((2 : ℚ) ^ ((Nat.log2 s20.data.length : ℤ) - 5))
              ((2 : ℚ) ^ ((Nat.log2 s20.data.length : ℤ) - 3))).2.drop 6).map sqZero,
            none⟩
       ∧ ((asd welchC sqZero s20 false 6).toOption.getD
            ⟨defaultFS, [], [], none⟩).freqs.length = 8 - 6
       ∧ ((asd welchC sqZero s20 false 6).toOption.getD
            ⟨defaultFS, [], [], none⟩).ampls.length = 8 - 6) :=
  ⟨⟨by decide, rfl, rfl, by decide⟩,
   claim8 welchC sqZero s20 6 8 (by decide) rfl rfl (by decide)⟩

/-- C9: the style sequencer: on the first call, or whenever the session
label differs from the previous call's, a new color is drawn from the
rotating palette (the next palette draw, `st.colorDraws`) together with the
FIRST entry of the 4-entry dash cycle; on a call with the same session
label, the same color is returned with the next dash pattern, the cycle
position advancing by one and the emitted entry taken modulo 4 (wraparound).
For labels ["A", "A", "B"]: calls 1 and 2 share color 0 with the first two
dash patterns, and call 3 draws the new color 1 with the cycle reset to its
first entry. -/
theorem claim9 :
    (∀ (st : PlotState) (s : Option String), st.prev_style = none →
        _generate_line_props st s
          = (⟨styles.getD 0 LineStyle.solid, st.colorDraws⟩,
             ⟨some ⟨st.colorDraws, s, 1⟩, st.colorDraws + 1⟩))
    ∧ (∀ (st : PlotState) (p : PrevStyle) (s : Option String),
        st.prev_style = some p → p.session ≠ s →
        _generate_line_props st s
          = (⟨styles.getD 0 LineStyle.solid, st.colorDraws⟩,
             ⟨some ⟨st.colorDraws, s, 1⟩, st.colorDraws + 1⟩))
    ∧ (∀ (st : PlotState) (p : PrevStyle) (s : Option String),
        st.prev_style = some p → p.session = s →
        _generate_line_props st s
          = (⟨styles.getD (p.styleIdx % 4) LineStyle.solid, p.color⟩,
             ⟨some ⟨p.color, p.session, p.styleIdx + 1⟩, st.colorDraws⟩))
    ∧ runStyles [some "A", some "A", some "B"]
        = [⟨LineStyle.solid, 0⟩, ⟨LineStyle.dashdot, 0⟩, ⟨LineStyle.solid, 1⟩] := by
  refine ⟨?_, ?_, ?_, ?_⟩
  · intro st s h
    simp [_generate_line_props, h]
  · intro st p s h hne
    simp [_generate_line_props, h, hne]
  · intro st p s h he
    simp [_generate_line_props, h, he]
  · decide

/-- C9 (witness: the two step rules applied at concrete states). -/
theorem claim9_witness :
    (initialPlotState.prev_style = none
     ∧ _generate_line_props initialPlotState (some "A")
        = (⟨styles.getD 0 LineStyle.solid, initialPlotState.colorDraws⟩,
           ⟨some ⟨initialPlotState.colorDraws, some "A", 1⟩,
            initialPlotState.colorDraws + 1⟩))
    ∧ ((⟨some ⟨0, some "A", 1⟩, 1⟩ : PlotState).prev_style = some ⟨0, some "A", 1⟩
       ∧ (⟨0, some "A", 1⟩ : PrevStyle).session = some "A"
       ∧ _generate_line_props ⟨some ⟨0, some "A", 1⟩, 1⟩ (some "A")
          = (⟨styles.getD (1 % 4) LineStyle.solid, 0⟩, ⟨some ⟨0, some "A", 2⟩, 1⟩)) :=
  ⟨⟨rfl, claim9.1 initialPlotState (some "A") rfl⟩,
   ⟨rfl, rfl, claim9.2.2.1 ⟨some ⟨0, some "A", 1⟩, 1⟩ ⟨0, some "A", 1⟩ (some "A") rfl rfl⟩⟩

end Freqle
